import Mathlib

/-!
Verification of the habit-completion / streak engine of the Daily-habit-tracker
backend (src/backend/services.py, src/backend/models.py).

Calendar dates are modelled as integers (whole days since an arbitrary epoch):
the source stores dates as ISO YYYY-MM-DD strings and only ever compares them
lexicographically (ORDER BY date DESC) or subtracts them in whole days
((d1 - d2).days), both of which agree with integer order and subtraction.

The database is modelled as the two tables the engine touches: the habits
table (an association list from id to row) and the habit_completions table
(a list of (habit_id, date) rows).  SQL reads and writes are modelled row by
row: SELECT ... WHERE id takes the first matching row, UPDATE ... WHERE id
rewrites every matching row, DELETE ... WHERE removes every matching row.
-/

/-- Row of the habits table (models.py, dataclass Habit). -/
structure Habit where
  name : String
  streak : Int
  last_done : Option Int
  created_at : Option String := none
  reminder_time : Option String := none
  is_archived : Bool := false
deriving DecidableEq, Repr

/-- The two tables the streak engine touches. -/
structure DB where
  habits : List (Nat × Habit)
  completions : List (Nat × Int)
deriving DecidableEq, Repr

/-- SELECT * FROM habits WHERE id = ? (fetchone: first matching row). -/
def findHabit : List (Nat × Habit) → Nat → Option Habit
  | [], _ => none
  | (k, h) :: rest, hid => if k = hid then some h else findHabit rest hid

/-- SELECT id FROM habit_completions WHERE habit_id = ? AND date = ? (nonempty?). -/
def completionExists (db : DB) (hid : Nat) (d : Int) : Bool :=
  db.completions.any (fun c => c.1 == hid && c.2 == d)

/-- SELECT date FROM habit_completions WHERE habit_id = ? (dates of one habit). -/
def completionDates (db : DB) (hid : Nat) : List Int :=
  (db.completions.filter (fun c => c.1 == hid)).map Prod.snd

/-- ORDER BY date DESC. -/
def sortDesc (l : List Int) : List Int :=
  List.insertionSort (fun a b => a ≥ b) l

/-- UPDATE habits SET streak = ?, last_done = ? WHERE id = ?. -/
def setHabitFields (hs : List (Nat × Habit)) (hid : Nat) (s : Int) (l : Option Int) :
    List (Nat × Habit) :=
  hs.map (fun p => if p.1 = hid then (p.1, { p.2 with streak := s, last_done := l }) else p)

/-- Streak formula shared by HabitManager._calculate_new_streak (models.py
lines 302-316) and the inline computation in
HabitService.complete_habit_for_today (services.py lines 95-104). -/
def calcNewStreak (habit : Habit) (today : Int) : Int :=
  match habit.last_done with
  | none => 1
  | some last_done => if today - last_done = 1 then habit.streak + 1 else 1

/-- HabitService.complete_habit_for_today (services.py lines 74-118).
The first component is the returned result (ok new_streak, or the error
string); the second is the database after the call (unchanged on error,
since the source returns before any write). -/
def complete_habit_for_today (hid : Nat) (today : Int) (db : DB) :
    Except String Int × DB :=
  match findHabit db.habits hid with
  | none => (Except.error "Habit not found", db)
  | some habit =>
    if completionExists db hid today then
      (Except.error "Habit already completed today", db)
    else
      let new_streak := calcNewStreak habit today
      (Except.ok new_streak,
        { habits := setHabitFields db.habits hid new_streak (some today),
          completions := db.completions ++ [(hid, today)] })

/-- Loop of services.py lines 157-166: starting from streak 1 and
expected = last_done - 1, walk the remaining DESC-sorted dates, counting
while each equals the expected day, stopping at the first mismatch. -/
def walkStreak : Int → List Int → Int → Int
  | _, [], streak => streak
  | expected, d :: ds, streak =>
    if d = expected then walkStreak (expected - 1) ds (streak + 1) else streak

/-- HabitService.uncomplete_habit_for_today (services.py lines 120-176). -/
def uncomplete_habit_for_today (hid : Nat) (today : Int) (db : DB) :
    Except String Int × DB :=
  match findHabit db.habits hid with
  | none => (Except.error "Habit not found", db)
  | some _ =>
    if completionExists db hid today then
      let comps' := db.completions.filter (fun c => !(c.1 == hid && c.2 == today))
      match sortDesc (completionDates { habits := db.habits, completions := comps' } hid) with
      | [] =>
        (Except.ok 0,
          { habits := setHabitFields db.habits hid 0 none, completions := comps' })
      | d :: rest =>
        let new_streak := walkStreak (d - 1) rest 1
        (Except.ok new_streak,
          { habits := setHabitFields db.habits hid new_streak (some d),
            completions := comps' })
    else (Except.error "Habit not completed today", db)

/-- Update applied per matching row by the UPDATE statement built in
HabitService.update_habit (services.py lines 187-210): an optional new name
(already stripped) and an optional new reminder value, where a falsy (empty)
reminder string is stored as NULL. -/
def applyHabitUpdate (h : Habit) (name : Option String) (rt : Option String) : Habit :=
  let h1 := match name with
    | some n => { h with name := n }
    | none => h
  match rt with
  | some r => { h1 with reminder_time := if r = "" then none else some r }
  | none => h1

/-- HabitService.update_habit (services.py lines 178-226). -/
def update_habit (hid : Nat) (name rt : Option String) (db : DB) :
    Except String Habit × DB :=
  match findHabit db.habits hid with
  | none => (Except.error "Habit not found", db)
  | some habit =>
    match name with
    | some n =>
      let new_name := n.trim
      if new_name = "" then (Except.error "Habit name cannot be empty", db)
      else if db.habits.any
          (fun p => p.2.name.toLower == new_name.toLower && p.1 != hid) then
        (Except.error "Habit with this name already exists", db)
      else
        (Except.ok (applyHabitUpdate habit (some new_name) rt),
          { db with habits := db.habits.map (fun p =>
              if p.1 = hid then (p.1, applyHabitUpdate p.2 (some new_name) rt) else p) })
    | none =>
      match rt with
      | none => (Except.error "No fields to update", db)
      | some r =>
        (Except.ok (applyHabitUpdate habit none (some r)),
          { db with habits := db.habits.map (fun p =>
              if p.1 = hid then (p.1, applyHabitUpdate p.2 none (some r)) else p) })

/-- HabitService.archive_habit (services.py lines 228-242): UPDATE habits SET
is_archived = 1 WHERE id = ?, reporting an error when no row matched. -/
def archive_habit (hid : Nat) (db : DB) : Except String Unit × DB :=
  if db.habits.any (fun p => p.1 == hid) then
    (Except.ok (),
      { db with habits := db.habits.map (fun p =>
          if p.1 = hid then (p.1, { p.2 with is_archived := true }) else p) })
  else (Except.error "Habit not found", db)

/-- HabitService.unarchive_habit (services.py lines 276-290). -/
def unarchive_habit (hid : Nat) (db : DB) : Except String Unit × DB :=
  if db.habits.any (fun p => p.1 == hid) then
    (Except.ok (),
      { db with habits := db.habits.map (fun p =>
          if p.1 = hid then (p.1, { p.2 with is_archived := false }) else p) })
  else (Except.error "Habit not found", db)

/-- Modelled from the spec glossary: the number of consecutive calendar days
present in the completion set, counted downward starting at day d (a day in
the run contributes 1 and the count continues at the previous day; the count
stops at the first missing day). -/
def consecCount (s : List Int) (d : Int) : Int :=
  if h : d ∈ s then 1 + consecCount (s.erase d) (d - 1) else 0
termination_by s.length
decreasing_by
  have := List.length_erase_of_mem h
  have : 0 < s.length := List.length_pos_of_mem h
  omega

/-- Maximum element of a list of dates (none when empty): the most recent
completion date of a completion set. -/
def maxDate : List Int → Option Int
  | [] => none
  | d :: ds =>
    match maxDate ds with
    | none => some d
    | some m => some (max d m)

/-- Modelled from the spec data model: the last-completed date a habit row
should cache, namely the most recent date in its completion set (null when
the set is empty). -/
def specLastDone (s : List Int) : Option Int := maxDate s

/-- Modelled from the spec glossary: the streak a habit row should cache,
namely the count of consecutive calendar days present in the completion set,
ending at the most recent completion (0 when the set is empty). -/
def specStreak (s : List Int) : Int :=
  match maxDate s with
  | none => 0
  | some m => consecCount s m

/-- Projection lists used to state frame properties: the streak column of the
habits table, and similarly for the other columns. -/
def streakCol (db : DB) : List (Nat × Int) := db.habits.map (fun p => (p.1, p.2.streak))

def lastDoneCol (db : DB) : List (Nat × Option Int) :=
  db.habits.map (fun p => (p.1, p.2.last_done))

def nameCol (db : DB) : List (Nat × String) := db.habits.map (fun p => (p.1, p.2.name))

def reminderCol (db : DB) : List (Nat × Option String) :=
  db.habits.map (fun p => (p.1, p.2.reminder_time))

def archivedCol (db : DB) : List (Nat × Bool) :=
  db.habits.map (fun p => (p.1, p.2.is_archived))

/-- Habit state as freshly created by HabitService.add_new_habit: streak 0,
last_done NULL, and no completion records. -/
def freshDB (hid : Nat) (name : String) (rt : Option String) : DB :=
  { habits := [(hid, { name := name, streak := 0, last_done := none, reminder_time := rt })],
    completions := [] }

/-- Habit states reachable from a freshly created habit by any sequence of
complete / uncomplete calls whose current dates never decrease; the integer
component is the date of the most recent call. -/
inductive Reach : DB → Int → Prop
  | init (hid : Nat) (name : String) (rt : Option String) (t : Int) :
      Reach (freshDB hid name rt) t
  | completeStep (db : DB) (t t' : Int) (hid : Nat) :
      Reach db t → t ≤ t' → Reach (complete_habit_for_today hid t' db).2 t'
  | uncompleteStep (db : DB) (t t' : Int) (hid : Nat) :
      Reach db t → t ≤ t' → Reach (uncomplete_habit_for_today hid t' db).2 t'

/-- Inductive invariant: per-habit completion dates are duplicate-free, no
completion is dated after the clock, and every habit row's cached streak and
last_done fields agree with the values derived from its completion set. -/
def EngineInv (db : DB) (t : Int) : Prop :=
  (∀ hid, (completionDates db hid).Nodup) ∧
  (∀ c ∈ db.completions, c.2 ≤ t) ∧
  (∀ hid habit, findHabit db.habits hid = some habit →
    habit.streak = specStreak (completionDates db hid) ∧
    habit.last_done = specLastDone (completionDates db hid))

/-- Concrete single-habit states used to instantiate the claim theorems on
explicit inputs. -/
def habitFreshW : Habit := { name := "water", streak := 0, last_done := none }

def dbFreshW : DB := { habits := [(1, habitFreshW)], completions := [] }

def habitDoneW : Habit := { name := "water", streak := 1, last_done := some 5 }

def dbDoneW : DB := { habits := [(1, habitDoneW)], completions := [(1, 5)] }

def dbEmptyW : DB := { habits := [], completions := [] }

/-- Cache-divergent state of the shape the JSON migration produces: cached
streak and last_done are set although no completion records exist. -/
def dbDivergentW : DB :=
  { habits := [(1, { name := "water", streak := 5, last_done := some 10 })],
    completions := [] }

def habitMigratedW : Habit := { name := "water", streak := 99, last_done := some 7 }

def dbMigratedW : DB := { habits := [(1, habitMigratedW)], completions := [] }

section Helpers

theorem findHabit_cons (a : Nat) (b : Habit) (l : List (Nat × Habit)) (q : Nat) :
    findHabit ((a, b) :: l) q = if a = q then some b else findHabit l q := rfl

theorem findHabit_mapIf (f : Habit → Habit) (hs : List (Nat × Habit)) (hid k : Nat) :
    findHabit (hs.map (fun p => if p.1 = hid then (p.1, f p.2) else p)) k
      = if k = hid then (findHabit hs k).map f else findHabit hs k := by
  induction hs with
  | nil => simp [findHabit]
  | cons p rest ih =>
    obtain ⟨a, b⟩ := p
    simp only [List.map_cons]
    by_cases hah : a = hid
    · rw [if_pos (show (a, b).1 = hid from hah)]
      by_cases hak : a = k
      · have h1 : k = hid := by rw [← hak]; exact hah
        simp only [findHabit_cons, if_pos hak, if_pos h1, Option.map_some']
      · have h2 : ¬ k = hid := fun h => hak (hah.trans h.symm)
        simp only [findHabit_cons, if_neg hak, if_neg h2, ih]
    · rw [if_neg (show ¬((a, b).1 = hid) from hah)]
      simp only [findHabit_cons, ih]
      by_cases hak : a = k
      · have h2 : ¬ k = hid := fun h => hah (hak.trans h)
        simp only [if_pos hak, if_neg h2]
      · simp only [if_neg hak]

theorem findHabit_setHabitFields (hs : List (Nat × Habit)) (hid k : Nat) (s : Int)
    (l : Option Int) :
    findHabit (setHabitFields hs hid s l) k
      = if k = hid then
          (findHabit hs k).map (fun h => { h with streak := s, last_done := l })
        else findHabit hs k := by
  unfold setHabitFields
  exact findHabit_mapIf (fun h => { h with streak := s, last_done := l }) hs hid k

theorem completionExists_iff (db : DB) (hid : Nat) (d : Int) :
    completionExists db hid d = true ↔ (hid, d) ∈ db.completions := by
  simp only [completionExists, List.any_eq_true, Bool.and_eq_true, beq_iff_eq]
  constructor
  · rintro ⟨⟨a, b⟩, hmem, h1, h2⟩
    simp only at h1 h2
    subst h1; subst h2; exact hmem
  · intro h
    exact ⟨(hid, d), h, rfl, rfl⟩

theorem mem_completionDates (db : DB) (hid : Nat) (x : Int) :
    x ∈ completionDates db hid ↔ (hid, x) ∈ db.completions := by
  simp only [completionDates, List.mem_map, List.mem_filter, beq_iff_eq]
  constructor
  · rintro ⟨⟨a, b⟩, ⟨hmem, h1⟩, h2⟩
    simp only at h1 h2
    subst h1; subst h2; exact hmem
  · intro h
    exact ⟨(hid, x), ⟨h, rfl⟩, rfl⟩

theorem completionDates_append_own (hs : List (Nat × Habit)) (comps : List (Nat × Int))
    (hid : Nat) (d : Int) :
    completionDates { habits := hs, completions := comps ++ [(hid, d)] } hid
      = completionDates { habits := hs, completions := comps } hid ++ [d] := by
  simp [completionDates, List.filter_append]

theorem completionDates_irrel_habits (hs hs' : List (Nat × Habit))
    (comps : List (Nat × Int)) (k : Nat) :
    completionDates { habits := hs, completions := comps } k
      = completionDates { habits := hs', completions := comps } k := rfl

theorem completionDates_delete (hs : List (Nat × Habit)) (comps : List (Nat × Int))
    (hid : Nat) (today : Int) :
    completionDates
        { habits := hs, completions := comps.filter (fun c => !(c.1 == hid && c.2 == today)) }
        hid
      = (completionDates { habits := hs, completions := comps } hid).filter
          (fun d => !(d == today)) := by
  induction comps with
  | nil => rfl
  | cons c rest ih =>
    obtain ⟨a, b⟩ := c
    by_cases ha : a = hid <;> by_cases hb : b = today <;>
      simp [completionDates, List.filter_cons, ha, hb, ih] <;>
      simp [completionDates] at ih <;> simp [ih]

theorem completionDates_delete_other (hs : List (Nat × Habit)) (comps : List (Nat × Int))
    (hid k : Nat) (today : Int) (hk : ¬ k = hid) :
    completionDates
        { habits := hs, completions := comps.filter (fun c => !(c.1 == hid && c.2 == today)) }
        k
      = completionDates { habits := hs, completions := comps } k := by
  induction comps with
  | nil => rfl
  | cons c rest ih =>
    obtain ⟨a, b⟩ := c
    by_cases ha : a = hid <;> by_cases hb : b = today <;> by_cases hak : a = k <;>
      simp_all [completionDates, List.filter_cons]

theorem completionDates_append_other (hs : List (Nat × Habit)) (comps : List (Nat × Int))
    (hid k : Nat) (d : Int) (hk : k ≠ hid) :
    completionDates { habits := hs, completions := comps ++ [(hid, d)] } k
      = completionDates { habits := hs, completions := comps } k := by
  simp [completionDates, List.filter_append, List.filter_cons, beq_iff_eq, Ne.symm hk]

theorem maxDate_eq_none_iff (l : List Int) : maxDate l = none ↔ l = [] := by
  cases l with
  | nil => simp [maxDate]
  | cons d ds =>
    simp only [maxDate]
    cases maxDate ds <;> simp

theorem maxDate_mem {l : List Int} {m : Int} (h : maxDate l = some m) : m ∈ l := by
  induction l generalizing m with
  | nil => simp [maxDate] at h
  | cons d ds ih =>
    simp only [maxDate] at h
    cases hds : maxDate ds with
    | none => rw [hds] at h; simp at h; simp [h]
    | some m' =>
      rw [hds] at h
      simp only [Option.some.injEq] at h
      rcases max_choice d m' with hc | hc
      · rw [hc] at h; simp [h]
      · rw [hc] at h; subst h; exact List.mem_cons_of_mem _ (ih hds)

theorem le_maxDate {l : List Int} {m x : Int} (hx : x ∈ l) (h : maxDate l = some m) :
    x ≤ m := by
  induction l generalizing m with
  | nil => simp at hx
  | cons d ds ih =>
    simp only [maxDate] at h
    rcases List.mem_cons.mp hx with rfl | hx'
    · cases hds : maxDate ds with
      | none => rw [hds] at h; simp at h; omega
      | some m' =>
        rw [hds] at h
        simp only [Option.some.injEq] at h
        subst h; exact le_max_left _ _
    · cases hds : maxDate ds with
      | none =>
        rw [maxDate_eq_none_iff] at hds
        subst hds; simp at hx'
      | some m' =>
        rw [hds] at h
        simp only [Option.some.injEq] at h
        subst h; exact le_trans (ih hx' hds) (le_max_right _ _)

theorem maxDate_eq_some {l : List Int} {m : Int} (hmem : m ∈ l)
    (hub : ∀ x ∈ l, x ≤ m) : maxDate l = some m := by
  cases hl : maxDate l with
  | none => rw [maxDate_eq_none_iff] at hl; subst hl; simp at hmem
  | some m' =>
    have h1 : m ≤ m' := le_maxDate hmem hl
    have h2 : m' ≤ m := hub m' (maxDate_mem hl)
    rw [le_antisymm h1 h2]

theorem consecCount_of_not_mem {s : List Int} {d : Int} (h : d ∉ s) :
    consecCount s d = 0 := by
  rw [consecCount]; simp [h]

theorem consecCount_cons_self (s : List Int) (d : Int) :
    consecCount (d :: s) d = 1 + consecCount s (d - 1) := by
  rw [consecCount]
  simp [List.erase_cons_head]

theorem consecCount_congr_aux (n : Nat) :
    ∀ (s t : List Int) (e : Int), s.length ≤ n →
      (∀ x, x ≤ e → (x ∈ s ↔ x ∈ t)) → consecCount s e = consecCount t e := by
  induction n with
  | zero =>
    intro s t e hlen hmem
    have hs : s = [] := List.eq_nil_of_length_eq_zero (Nat.le_zero.mp hlen)
    subst hs
    have het : e ∉ t := fun ht => by simpa using (hmem e le_rfl).mpr ht
    rw [consecCount_of_not_mem (by simp), consecCount_of_not_mem het]
  | succ n ih =>
    intro s t e hlen hmem
    by_cases he : e ∈ s
    · have het : e ∈ t := (hmem e le_rfl).mp he
      have hL : consecCount s e = 1 + consecCount (s.erase e) (e - 1) := by
        rw [consecCount, dif_pos he]
      have hR : consecCount t e = 1 + consecCount (t.erase e) (e - 1) := by
        rw [consecCount, dif_pos het]
      rw [hL, hR]
      congr 1
      apply ih
      · have h1 := List.length_erase_of_mem he
        have h2 := List.length_pos_of_mem he
        omega
      · intro x hx
        have hxe : x ≠ e := by omega
        rw [List.mem_erase_of_ne hxe, List.mem_erase_of_ne hxe]
        exact hmem x (by omega)
    · have het : e ∉ t := fun ht => he ((hmem e le_rfl).mpr ht)
      rw [consecCount_of_not_mem he, consecCount_of_not_mem het]

theorem consecCount_congr {s t : List Int} (e : Int)
    (hmem : ∀ x, x ≤ e → (x ∈ s ↔ x ∈ t)) : consecCount s e = consecCount t e :=
  consecCount_congr_aux s.length s t e le_rfl hmem

instance : IsTotal Int (fun a b => a ≥ b) := ⟨fun a b => le_total b a⟩

instance : IsTrans Int (fun a b => a ≥ b) := ⟨fun _ _ _ h1 h2 => le_trans h2 h1⟩

theorem sortDesc_perm (l : List Int) : List.Perm (sortDesc l) l :=
  List.perm_insertionSort _ l

theorem sortDesc_sorted (l : List Int) :
    List.Pairwise (fun a b : Int => a ≥ b) (sortDesc l) :=
  List.sorted_insertionSort _ l

theorem sortDesc_strict {l : List Int} (hnd : l.Nodup) :
    List.Pairwise (fun a b : Int => a > b) (sortDesc l) := by
  have h1 := sortDesc_sorted l
  have h2 : (sortDesc l).Nodup := ((sortDesc_perm l).nodup_iff).mpr hnd
  exact (h1.and h2).imp (fun hab => lt_of_le_of_ne hab.1 (Ne.symm hab.2))

theorem sortDesc_nil_iff {l : List Int} : sortDesc l = [] ↔ l = [] := by
  constructor
  · intro h
    have hp := sortDesc_perm l
    rw [h] at hp
    exact hp.symm.eq_nil
  · rintro rfl; rfl

theorem sortDesc_head_max {l : List Int} {d : Int} {rest : List Int}
    (h : sortDesc l = d :: rest) : d ∈ l ∧ ∀ x ∈ l, x ≤ d := by
  have hperm := sortDesc_perm l
  rw [h] at hperm
  constructor
  · exact hperm.mem_iff.mp (List.mem_cons_self d rest)
  · intro x hx
    have hx' : x ∈ d :: rest := hperm.mem_iff.mpr hx
    rcases List.mem_cons.mp hx' with rfl | hxr
    · exact le_rfl
    · have hs := sortDesc_sorted l
      rw [h] at hs
      exact (List.pairwise_cons.mp hs).1 x hxr

theorem walkStreak_eq_consecCount :
    ∀ (rest : List Int) (e acc : Int),
      List.Pairwise (fun a b : Int => a > b) rest → (∀ x ∈ rest, x ≤ e) →
      walkStreak e rest acc = acc + consecCount rest e := by
  intro rest
  induction rest with
  | nil =>
    intro e acc _ _
    simp [walkStreak, consecCount_of_not_mem]
  | cons x xs ih =>
    intro e acc hpw hub
    have hpw' := List.pairwise_cons.mp hpw
    by_cases hxe : x = e
    · subst hxe
      rw [show walkStreak x (x :: xs) acc = walkStreak (x - 1) xs (acc + 1) from by
        simp [walkStreak]]
      rw [ih (x - 1) (acc + 1) hpw'.2 (fun y hy => by have := hpw'.1 y hy; omega)]
      rw [consecCount_cons_self]
      omega
    · rw [show walkStreak e (x :: xs) acc = acc from by simp [walkStreak, hxe]]
      have hnot : e ∉ x :: xs := by
        intro hmem
        rcases List.mem_cons.mp hmem with rfl | hxs
        · exact hxe rfl
        · have h1 := hpw'.1 e hxs
          have h2 := hub x (List.mem_cons_self x xs)
          omega
      rw [consecCount_of_not_mem hnot]
      omega

theorem specLastDone_of_sortDesc_cons {l : List Int} {d : Int} {rest : List Int}
    (h : sortDesc l = d :: rest) : specLastDone l = some d := by
  obtain ⟨hmem, hub⟩ := sortDesc_head_max h
  exact maxDate_eq_some hmem hub

theorem walkStreak_spec {l : List Int} {d : Int} {rest : List Int} (hnd : l.Nodup)
    (h : sortDesc l = d :: rest) : walkStreak (d - 1) rest 1 = specStreak l := by
  obtain ⟨hmem, hub⟩ := sortDesc_head_max h
  have hmax : maxDate l = some d := maxDate_eq_some hmem hub
  have hstrict : List.Pairwise (fun a b : Int => a > b) (d :: rest) := by
    have hst := sortDesc_strict hnd
    rwa [h] at hst
  have hd_rest := List.pairwise_cons.mp hstrict
  have hw := walkStreak_eq_consecCount rest (d - 1) 1 hd_rest.2
    (fun x hx => by have := hd_rest.1 x hx; omega)
  have hperm : List.Perm (d :: rest) l := by
    have hp := sortDesc_perm l
    rwa [h] at hp
  have hcongr : consecCount l d = consecCount (d :: rest) d :=
    consecCount_congr d (fun x _ => Iff.symm (hperm.mem_iff))
  have hs : specStreak l = consecCount l d := by
    rw [specStreak, hmax]
  rw [hs, hcongr, consecCount_cons_self, hw]

theorem complete_not_found {hid : Nat} {today : Int} {db : DB}
    (h : findHabit db.habits hid = none) :
    complete_habit_for_today hid today db = (Except.error "Habit not found", db) := by
  simp only [complete_habit_for_today, h]

theorem uncomplete_not_found {hid : Nat} {today : Int} {db : DB}
    (h : findHabit db.habits hid = none) :
    uncomplete_habit_for_today hid today db = (Except.error "Habit not found", db) := by
  simp only [uncomplete_habit_for_today, h]

theorem complete_already {hid : Nat} {today : Int} {db : DB} {habit : Habit}
    (hfind : findHabit db.habits hid = some habit)
    (hex : completionExists db hid today = true) :
    complete_habit_for_today hid today db
      = (Except.error "Habit already completed today", db) := by
  simp only [complete_habit_for_today, hfind, hex, if_true]

theorem complete_ok_eq {hid : Nat} {today : Int} {db : DB} {habit : Habit}
    (hfind : findHabit db.habits hid = some habit)
    (hex : completionExists db hid today = false) :
    complete_habit_for_today hid today db
      = (Except.ok (calcNewStreak habit today),
         { habits := setHabitFields db.habits hid (calcNewStreak habit today) (some today),
           completions := db.completions ++ [(hid, today)] }) := by
  simp only [complete_habit_for_today, hfind, hex]
  rfl

theorem uncomplete_not_completed {hid : Nat} {today : Int} {db : DB} {habit : Habit}
    (hfind : findHabit db.habits hid = some habit)
    (hex : completionExists db hid today = false) :
    uncomplete_habit_for_today hid today db
      = (Except.error "Habit not completed today", db) := by
  simp only [uncomplete_habit_for_today, hfind, hex]
  rfl

theorem uncomplete_ok_eq {hid : Nat} {today : Int} {db : DB} {habit : Habit}
    (hfind : findHabit db.habits hid = some habit)
    (hex : completionExists db hid today = true)
    (hnd : (completionDates db hid).Nodup) :
    uncomplete_habit_for_today hid today db
      = (Except.ok (specStreak ((completionDates db hid).filter (fun d => !(d == today)))),
         { habits := setHabitFields db.habits hid
             (specStreak ((completionDates db hid).filter (fun d => !(d == today))))
             (specLastDone ((completionDates db hid).filter (fun d => !(d == today)))),
           completions := db.completions.filter (fun c => !(c.1 == hid && c.2 == today)) }) := by
  have hdel := completionDates_delete db.habits db.completions hid today
  simp only [uncomplete_habit_for_today, hfind, hex, if_true]
  rw [hdel]
  cases hsd : sortDesc ((completionDates db hid).filter (fun d => !(d == today))) with
  | nil =>
    have hre : (completionDates db hid).filter (fun d => !(d == today)) = [] :=
      sortDesc_nil_iff.mp hsd
    rw [hre]
    simp [specStreak, specLastDone, maxDate]
  | cons d rest =>
    have hnd' : ((completionDates db hid).filter (fun d => !(d == today))).Nodup :=
      hnd.filter _
    have hw := walkStreak_spec hnd' hsd
    have hl := specLastDone_of_sortDesc_cons hsd
    dsimp only
    rw [hw, hl]

theorem specStreak_append {old : List Int} {t' : Int} (hub : ∀ x ∈ old, x ≤ t') :
    specStreak (old ++ [t']) = 1 + consecCount old (t' - 1) ∧
    specLastDone (old ++ [t']) = some t' := by
  have hmax : maxDate (old ++ [t']) = some t' := by
    apply maxDate_eq_some
    · simp
    · intro x hx
      rcases List.mem_append.mp hx with hx' | hx'
      · exact hub x hx'
      · simp at hx'
        omega
  constructor
  · rw [specStreak, hmax]
    dsimp only
    have hcongr : consecCount (old ++ [t']) t' = consecCount (t' :: old) t' :=
      consecCount_congr t' (fun x _ => by simp [List.mem_append, or_comm])
    rw [hcongr, consecCount_cons_self]
  · rw [specLastDone, hmax]

theorem calcNewStreak_correct {habit : Habit} {old : List Int} {t t' : Int}
    (hstreak : habit.streak = specStreak old)
    (hlast : habit.last_done = specLastDone old)
    (hub : ∀ x ∈ old, x ≤ t) (hle : t ≤ t') (hnm : t' ∉ old) :
    calcNewStreak habit t' = specStreak (old ++ [t']) := by
  have hub' : ∀ x ∈ old, x ≤ t' := fun x hx => le_trans (hub x hx) hle
  obtain ⟨hsa, _⟩ := specStreak_append hub'
  rw [hsa]
  rw [calcNewStreak]
  cases hld : habit.last_done with
  | none =>
    have hmax : maxDate old = none := by
      rw [hld] at hlast
      exact hlast.symm
    have hold : old = [] := (maxDate_eq_none_iff old).mp hmax
    subst hold
    dsimp only
    rw [consecCount_of_not_mem (by simp)]
    omega
  | some ld =>
    have hmax : maxDate old = some ld := by
      rw [hld] at hlast
      exact hlast.symm
    have hldmem : ld ∈ old := maxDate_mem hmax
    have hldub : ∀ x ∈ old, x ≤ ld := fun x hx => le_maxDate hx hmax
    dsimp only
    have hldlt : ld < t' := by
      have h1 : ld ≤ t' := hub' ld hldmem
      have h2 : ld ≠ t' := fun h => hnm (h ▸ hldmem)
      omega
    by_cases hgap : t' - ld = 1
    · rw [if_pos hgap]
      have ht1 : t' - 1 = ld := by omega
      rw [ht1, hstreak, specStreak, hmax]
      dsimp only
      omega
    · rw [if_neg hgap]
      have hnm1 : t' - 1 ∉ old := by
        intro hmem
        have := hldub (t' - 1) hmem
        omega
      rw [consecCount_of_not_mem hnm1]
      omega


theorem applyHabitUpdate_streak (h : Habit) (n r : Option String) :
    (applyHabitUpdate h n r).streak = h.streak := by
  cases n <;> cases r <;> rfl

theorem applyHabitUpdate_last_done (h : Habit) (n r : Option String) :
    (applyHabitUpdate h n r).last_done = h.last_done := by
  cases n <;> cases r <;> rfl

theorem applyHabitUpdate_is_archived (h : Habit) (n r : Option String) :
    (applyHabitUpdate h n r).is_archived = h.is_archived := by
  cases n <;> cases r <;> rfl

theorem col_map_mapIf {A : Type} (f : Habit → Habit) (pr : Habit → A)
    (hpr : ∀ h, pr (f h) = pr h) (hs : List (Nat × Habit)) (hid : Nat) :
    (hs.map (fun p => if p.1 = hid then (p.1, f p.2) else p)).map (fun p => (p.1, pr p.2))
      = hs.map (fun p => (p.1, pr p.2)) := by
  rw [List.map_map]
  apply List.map_congr_left
  intro p _
  by_cases hp : p.1 = hid
  · simp [hp, hpr]
  · simp [hp]

theorem update_habit_frame (hid : Nat) (name rt : Option String) (db : DB) :
    streakCol (update_habit hid name rt db).2 = streakCol db ∧
    lastDoneCol (update_habit hid name rt db).2 = lastDoneCol db ∧
    archivedCol (update_habit hid name rt db).2 = archivedCol db ∧
    (update_habit hid name rt db).2.completions = db.completions := by
  cases hf : findHabit db.habits hid with
  | none =>
    simp only [update_habit, hf]
    repeat' apply And.intro
    all_goals trivial
  | some habit =>
    cases name with
    | some n =>
      simp only [update_habit, hf]
      by_cases h1 : n.trim = ""
      · rw [if_pos h1]
        repeat' apply And.intro
        all_goals trivial
      · rw [if_neg h1]
        by_cases h2 : db.habits.any
            (fun p => p.2.name.toLower == (n.trim).toLower && p.1 != hid) = true
        · rw [if_pos h2]
          repeat' apply And.intro
          all_goals trivial
        · rw [if_neg h2]
          repeat' apply And.intro
          all_goals first
            | trivial
            | exact col_map_mapIf (fun x => applyHabitUpdate x (some n.trim) rt)
                (fun x => x.streak) (fun x => applyHabitUpdate_streak x _ _) db.habits hid
            | exact col_map_mapIf (fun x => applyHabitUpdate x (some n.trim) rt)
                (fun x => x.last_done) (fun x => applyHabitUpdate_last_done x _ _) db.habits hid
            | exact col_map_mapIf (fun x => applyHabitUpdate x (some n.trim) rt)
                (fun x => x.is_archived) (fun x => applyHabitUpdate_is_archived x _ _) db.habits hid
    | none =>
      cases rt with
      | none =>
        simp only [update_habit, hf]
        repeat' apply And.intro
        all_goals trivial
      | some r =>
        simp only [update_habit, hf]
        repeat' apply And.intro
        all_goals first
          | trivial
          | exact col_map_mapIf (fun x => applyHabitUpdate x none (some r))
              (fun x => x.streak) (fun x => applyHabitUpdate_streak x _ _) db.habits hid
          | exact col_map_mapIf (fun x => applyHabitUpdate x none (some r))
              (fun x => x.last_done) (fun x => applyHabitUpdate_last_done x _ _) db.habits hid
          | exact col_map_mapIf (fun x => applyHabitUpdate x none (some r))
              (fun x => x.is_archived) (fun x => applyHabitUpdate_is_archived x _ _) db.habits hid

theorem archive_habit_frame (hid : Nat) (db : DB) :
    streakCol (archive_habit hid db).2 = streakCol db ∧
    lastDoneCol (archive_habit hid db).2 = lastDoneCol db ∧
    nameCol (archive_habit hid db).2 = nameCol db ∧
    reminderCol (archive_habit hid db).2 = reminderCol db ∧
    (archive_habit hid db).2.completions = db.completions := by
  by_cases h : db.habits.any (fun p => p.1 == hid) = true
  · simp only [archive_habit, if_pos h]
    repeat' apply And.intro
    all_goals first
      | trivial
      | exact col_map_mapIf (fun x => { x with is_archived := true })
          (fun x => x.streak) (fun x => rfl) db.habits hid
      | exact col_map_mapIf (fun x => { x with is_archived := true })
          (fun x => x.last_done) (fun x => rfl) db.habits hid
      | exact col_map_mapIf (fun x => { x with is_archived := true })
          (fun x => x.name) (fun x => rfl) db.habits hid
      | exact col_map_mapIf (fun x => { x with is_archived := true })
          (fun x => x.reminder_time) (fun x => rfl) db.habits hid
  · simp only [archive_habit, if_neg h]
    repeat' apply And.intro
    all_goals trivial

theorem unarchive_habit_frame (hid : Nat) (db : DB) :
    streakCol (unarchive_habit hid db).2 = streakCol db ∧
    lastDoneCol (unarchive_habit hid db).2 = lastDoneCol db ∧
    nameCol (unarchive_habit hid db).2 = nameCol db ∧
    reminderCol (unarchive_habit hid db).2 = reminderCol db ∧
    (unarchive_habit hid db).2.completions = db.completions := by
  by_cases h : db.habits.any (fun p => p.1 == hid) = true
  · simp only [unarchive_habit, if_pos h]
    repeat' apply And.intro
    all_goals first
      | trivial
      | exact col_map_mapIf (fun x => { x with is_archived := false })
          (fun x => x.streak) (fun x => rfl) db.habits hid
      | exact col_map_mapIf (fun x => { x with is_archived := false })
          (fun x => x.last_done) (fun x => rfl) db.habits hid
      | exact col_map_mapIf (fun x => { x with is_archived := false })
          (fun x => x.name) (fun x => rfl) db.habits hid
      | exact col_map_mapIf (fun x => { x with is_archived := false })
          (fun x => x.reminder_time) (fun x => rfl) db.habits hid
  · simp only [unarchive_habit, if_neg h]
    repeat' apply And.intro
    all_goals trivial

theorem uncomplete_isOk {hid : Nat} {today : Int} {db : DB} {habit : Habit}
    (hfind : findHabit db.habits hid = some habit)
    (hex : completionExists db hid today = true) :
    ∃ ns, (uncomplete_habit_for_today hid today db).1 = Except.ok ns := by
  simp only [uncomplete_habit_for_today, hfind, hex, if_true]
  cases sortDesc (completionDates
      { habits := db.habits,
        completions := db.completions.filter (fun c => !(c.1 == hid && c.2 == today)) } hid) with
  | nil => exact ⟨0, rfl⟩
  | cons d rest => exact ⟨walkStreak (d - 1) rest 1, rfl⟩

end Helpers

theorem engineInv_mono {db : DB} {t t' : Int} (h : EngineInv db t) (hle : t ≤ t') : EngineInv db t' :=
  ⟨h.1, fun c hc => le_trans (h.2.1 c hc) hle, h.2.2⟩

theorem engineInv_complete {db : DB} {t t' : Int} {hid : Nat} (hinv : EngineInv db t)
    (hle : t ≤ t') : EngineInv (complete_habit_for_today hid t' db).2 t' := by
  cases hfind : findHabit db.habits hid with
  | none => rw [complete_not_found hfind]; exact engineInv_mono hinv hle
  | some habit =>
    cases hex : completionExists db hid t' with
    | true => rw [complete_already hfind hex]; exact engineInv_mono hinv hle
    | false =>
      rw [complete_ok_eq hfind hex]
      have hnm : t' ∉ completionDates db hid := by
        intro hm
        have h1 := (completionExists_iff db hid t').mpr ((mem_completionDates db hid t').mp hm)
        rw [hex] at h1
        exact Bool.false_ne_true h1
      have hub : ∀ x ∈ completionDates db hid, x ≤ t := fun x hx =>
        hinv.2.1 (hid, x) ((mem_completionDates db hid x).mp hx)
      refine ⟨?_, ?_, ?_⟩
      · intro k
        by_cases hk : k = hid
        · subst hk
          have h1 := completionDates_append_own
            (setHabitFields db.habits k (calcNewStreak habit t') (some t'))
            db.completions k t'
          rw [h1]
          exact (hinv.1 k).append (List.nodup_singleton t')
            (by intro x hx1 hx2; simp at hx2; subst hx2; exact hnm hx1)
        · have h1 := completionDates_append_other
            (setHabitFields db.habits hid (calcNewStreak habit t') (some t'))
            db.completions hid k t' hk
          rw [h1]
          exact hinv.1 k
      · intro c hc
        dsimp only at hc
        rcases List.mem_append.mp hc with hc' | hc'
        · exact le_trans (hinv.2.1 c hc') hle
        · simp at hc'
          subst hc'
          exact le_rfl
      · intro k hb hfind'
        dsimp only at hfind'
        rw [findHabit_setHabitFields] at hfind'
        by_cases hk : k = hid
        · subst hk
          rw [if_pos rfl, hfind] at hfind'
          simp only [Option.map_some'] at hfind'
          have hb_eq := Option.some.inj hfind'
          subst hb_eq
          have h1 := completionDates_append_own
            (setHabitFields db.habits k (calcNewStreak habit t') (some t'))
            db.completions k t'
          rw [h1]
          obtain ⟨hstreak, hlast⟩ := hinv.2.2 k habit hfind
          have hub' : ∀ x ∈ completionDates db k, x ≤ t' := fun x hx =>
            le_trans (hub x hx) hle
          constructor
          · exact calcNewStreak_correct hstreak hlast hub hle hnm
          · exact (specStreak_append hub').2.symm
        · rw [if_neg hk] at hfind'
          have h1 := completionDates_append_other
            (setHabitFields db.habits hid (calcNewStreak habit t') (some t'))
            db.completions hid k t' hk
          rw [h1]
          exact hinv.2.2 k hb hfind'

theorem engineInv_uncomplete {db : DB} {t t' : Int} {hid : Nat} (hinv : EngineInv db t)
    (hle : t ≤ t') : EngineInv (uncomplete_habit_for_today hid t' db).2 t' := by
  cases hfind : findHabit db.habits hid with
  | none => rw [uncomplete_not_found hfind]; exact engineInv_mono hinv hle
  | some habit =>
    cases hex : completionExists db hid t' with
    | false => rw [uncomplete_not_completed hfind hex]; exact engineInv_mono hinv hle
    | true =>
      rw [uncomplete_ok_eq hfind hex (hinv.1 hid)]
      refine ⟨?_, ?_, ?_⟩
      · intro k
        by_cases hk : k = hid
        · subst hk
          have h1 := completionDates_delete
            (setHabitFields db.habits k
              (specStreak ((completionDates db k).filter (fun d => !(d == t'))))
              (specLastDone ((completionDates db k).filter (fun d => !(d == t')))))
            db.completions k t'
          rw [h1]
          exact (hinv.1 k).filter _
        · have h1 := completionDates_delete_other
            (setHabitFields db.habits hid
              (specStreak ((completionDates db hid).filter (fun d => !(d == t'))))
              (specLastDone ((completionDates db hid).filter (fun d => !(d == t')))))
            db.completions hid k t' hk
          rw [h1]
          exact hinv.1 k
      · intro c hc
        dsimp only at hc
        exact le_trans (hinv.2.1 c (List.mem_of_mem_filter hc)) hle
      · intro k hb hfind'
        dsimp only at hfind'
        rw [findHabit_setHabitFields] at hfind'
        by_cases hk : k = hid
        · subst hk
          rw [if_pos rfl, hfind] at hfind'
          simp only [Option.map_some'] at hfind'
          have hb_eq := Option.some.inj hfind'
          subst hb_eq
          have h1 := completionDates_delete
            (setHabitFields db.habits k
              (specStreak ((completionDates db k).filter (fun d => !(d == t'))))
              (specLastDone ((completionDates db k).filter (fun d => !(d == t')))))
            db.completions k t'
          rw [h1]
          exact ⟨rfl, rfl⟩
        · rw [if_neg hk] at hfind'
          have h1 := completionDates_delete_other
            (setHabitFields db.habits hid
              (specStreak ((completionDates db hid).filter (fun d => !(d == t'))))
              (specLastDone ((completionDates db hid).filter (fun d => !(d == t')))))
            db.completions hid k t' hk
          rw [h1]
          exact hinv.2.2 k hb hfind'

theorem engineInv_of_reach : ∀ {db : DB} {t : Int}, Reach db t → EngineInv db t := by
  intro db t h
  induction h with
  | init hid name rt t =>
    refine ⟨?_, ?_, ?_⟩
    · intro k
      simp [completionDates, freshDB]
    · intro c hc
      simp [freshDB] at hc
    · intro k hb hf
      simp only [freshDB] at hf
      rw [findHabit_cons] at hf
      by_cases hk : hid = k
      · rw [if_pos hk] at hf
        have hb_eq := Option.some.inj hf
        subst hb_eq
        exact ⟨rfl, rfl⟩
      · rw [if_neg hk] at hf
        exact absurd hf (by simp [findHabit])
  | completeStep db t t' hid hr hle ih => exact engineInv_complete ih hle
  | uncompleteStep db t t' hid hr hle ih => exact engineInv_uncomplete ih hle

/-- Sanity check: completing a fresh habit on day 11 yields streak 1 and
records the completion. -/
theorem sanity_complete_fresh :
    complete_habit_for_today 1 11
      { habits := [(1, { name := "water", streak := 0, last_done := none })],
        completions := [] }
    = (Except.ok 1,
       { habits := [(1, { name := "water", streak := 1, last_done := some 11 })],
         completions := [(1, 11)] }) := rfl

/-- Sanity check matching the spec scenario: completions on days 1, 2, 4 and
uncompleting day 4 walks back from day 2 and yields streak 2. -/
theorem sanity_uncomplete_gap_scenario_streak :
    (uncomplete_habit_for_today 1 4
      { habits := [(1, { name := "water", streak := 1, last_done := some 4 })],
        completions := [(1, 1), (1, 2), (1, 4)] }).1
    = Except.ok 2 := rfl

/-- Sanity check: the same scenario also sets last_done to day 2. -/
theorem sanity_uncomplete_gap_scenario_state :
    (uncomplete_habit_for_today 1 4
      { habits := [(1, { name := "water", streak := 1, last_done := some 4 })],
        completions := [(1, 1), (1, 2), (1, 4)] }).2.habits
    = [(1, { name := "water", streak := 2, last_done := some 2 })] := rfl

/-- Claim C1: for every habit and date today such that the habit exists and no
completion record exists for (habit, today), complete inserts a completion
record for today, sets last-completed to today, and returns a new streak equal
to 1 when the habit has no prior last-completed date, to the old streak plus 1
when today minus the prior last-completed date is exactly one day, and to 1
(reset) for any other gap. -/
theorem claim_complete_inserts_and_computes_streak
    (hid : Nat) (today : Int) (db : DB) (habit : Habit)
    (hfind : findHabit db.habits hid = some habit)
    (hex : completionExists db hid today = false) :
    ∃ ns,
      complete_habit_for_today hid today db
        = (Except.ok ns,
           { habits := setHabitFields db.habits hid ns (some today),
             completions := db.completions ++ [(hid, today)] }) ∧
      findHabit (complete_habit_for_today hid today db).2.habits hid
        = some { habit with streak := ns, last_done := some today } ∧
      (habit.last_done = none → ns = 1) ∧
      (∀ ld, habit.last_done = some ld →
        (today - ld = 1 → ns = habit.streak + 1) ∧ (today - ld ≠ 1 → ns = 1)) := by
  refine ⟨calcNewStreak habit today, complete_ok_eq hfind hex, ?_, ?_, ?_⟩
  · rw [complete_ok_eq hfind hex]
    dsimp only
    rw [findHabit_setHabitFields, if_pos rfl, hfind]
    rfl
  · intro h
    rw [calcNewStreak, h]
  · intro ld h
    rw [calcNewStreak, h]
    dsimp only
    exact ⟨fun hg => by rw [if_pos hg], fun hg => by rw [if_neg hg]⟩

/-- Witness for claim C1: a fresh habit completed on day 5. -/
theorem claim_complete_inserts_and_computes_streak_witness :
    ∃ ns,
      complete_habit_for_today 1 5 dbFreshW
        = (Except.ok ns,
           { habits := setHabitFields dbFreshW.habits 1 ns (some 5),
             completions := dbFreshW.completions ++ [(1, 5)] }) ∧
      findHabit (complete_habit_for_today 1 5 dbFreshW).2.habits 1
        = some { habitFreshW with streak := ns, last_done := some 5 } ∧
      (habitFreshW.last_done = none → ns = 1) ∧
      (∀ ld, habitFreshW.last_done = some ld →
        ((5 : Int) - ld = 1 → ns = habitFreshW.streak + 1) ∧ ((5 : Int) - ld ≠ 1 → ns = 1)) :=
  claim_complete_inserts_and_computes_streak 1 5 dbFreshW habitFreshW rfl rfl

/-- Claim C2: for every habit that has a completion record for today,
uncomplete deletes that record and recomputes from the remaining completion
set: the new last-completed is the most recent remaining date (none when no
records remain) and the new streak is the count of consecutive calendar dates
present in the set walking backward from that date (0 when empty). -/
theorem claim_uncomplete_recomputes_from_remaining
    (hid : Nat) (today : Int) (db : DB) (habit : Habit)
    (hfind : findHabit db.habits hid = some habit)
    (hex : completionExists db hid today = true)
    (hnd : (completionDates db hid).Nodup) :
    ∃ ns,
      uncomplete_habit_for_today hid today db
        = (Except.ok ns,
           { habits := setHabitFields db.habits hid ns
               (specLastDone ((completionDates db hid).filter (fun d => !(d == today)))),
             completions := db.completions.filter (fun c => !(c.1 == hid && c.2 == today)) }) ∧
      ns = specStreak ((completionDates db hid).filter (fun d => !(d == today))) ∧
      ((completionDates db hid).filter (fun d => !(d == today)) = [] →
        ns = 0 ∧
        specLastDone ((completionDates db hid).filter (fun d => !(d == today))) = none) := by
  refine ⟨specStreak ((completionDates db hid).filter (fun d => !(d == today))),
    uncomplete_ok_eq hfind hex hnd, rfl, ?_⟩
  intro h
  rw [h]
  exact ⟨rfl, rfl⟩

/-- Witness for claim C2: uncompleting day 5 on a habit completed only on
day 5. -/
theorem claim_uncomplete_recomputes_from_remaining_witness :
    ∃ ns,
      uncomplete_habit_for_today 1 5 dbDoneW
        = (Except.ok ns,
           { habits := setHabitFields dbDoneW.habits 1 ns
               (specLastDone ((completionDates dbDoneW 1).filter (fun d => !(d == 5)))),
             completions := dbDoneW.completions.filter (fun c => !(c.1 == 1 && c.2 == 5)) }) ∧
      ns = specStreak ((completionDates dbDoneW 1).filter (fun d => !(d == 5))) ∧
      ((completionDates dbDoneW 1).filter (fun d => !(d == 5)) = [] →
        ns = 0 ∧
        specLastDone ((completionDates dbDoneW 1).filter (fun d => !(d == 5))) = none) :=
  claim_uncomplete_recomputes_from_remaining 1 5 dbDoneW habitDoneW rfl rfl (by decide)

/-- Claim C7: for a habit id not present in the store, complete and uncomplete
both return the distinct "Habit not found" error, as an error value inside the
returned result (never an uncaught exception), and this error is distinct from
the already-completed-today and not-completed-today errors. -/
theorem claim_unknown_habit_not_found
    (hid : Nat) (today : Int) (db : DB)
    (h : findHabit db.habits hid = none) :
    complete_habit_for_today hid today db = (Except.error "Habit not found", db) ∧
    uncomplete_habit_for_today hid today db = (Except.error "Habit not found", db) ∧
    ("Habit not found" : String) ≠ "Habit already completed today" ∧
    ("Habit not found" : String) ≠ "Habit not completed today" :=
  ⟨complete_not_found h, uncomplete_not_found h, by decide, by decide⟩

/-- Witness for claim C7: an empty store has no habit 1. -/
theorem claim_unknown_habit_not_found_witness :
    complete_habit_for_today 1 5 dbEmptyW = (Except.error "Habit not found", dbEmptyW) ∧
    uncomplete_habit_for_today 1 5 dbEmptyW = (Except.error "Habit not found", dbEmptyW) ∧
    ("Habit not found" : String) ≠ "Habit already completed today" ∧
    ("Habit not found" : String) ≠ "Habit not completed today" :=
  claim_unknown_habit_not_found 1 5 dbEmptyW rfl

/-- Claim C9: if the cached last-completed date already equals today while no
completion record exists for (habit, today) — a cache-divergent state such as
one the JSON migration produces — complete succeeds (the gap of 0 days falls
into the non-consecutive branch) and resets the streak to 1 regardless of the
previous streak value. -/
theorem claim_complete_gap_zero_resets
    (hid : Nat) (today : Int) (db : DB) (habit : Habit)
    (hfind : findHabit db.habits hid = some habit)
    (hlast : habit.last_done = some today)
    (hex : completionExists db hid today = false) :
    (complete_habit_for_today hid today db).1 = Except.ok 1 := by
  rw [complete_ok_eq hfind hex]
  dsimp only
  rw [calcNewStreak, hlast]
  dsimp only
  rw [if_neg (by omega)]

/-- Witness for claim C9: a migrated habit with cached streak 99 and cached
last_done equal to day 7 but no completion records, completed on day 7. -/
theorem claim_complete_gap_zero_resets_witness :
    (complete_habit_for_today 1 7 dbMigratedW).1 = Except.ok 1 :=
  claim_complete_gap_zero_resets 1 7 dbMigratedW habitMigratedW rfl rfl rfl

/-- Claim C10: the non-streak operations update_habit, archive_habit and
unarchive_habit leave every habit's streak and last_done columns and the whole
completion table unchanged; update_habit also leaves the archived column
unchanged, and archive/unarchive also leave the name and reminder columns
unchanged. -/
theorem claim_non_streak_ops_frame (hid : Nat) (name rt : Option String) (db : DB) :
    (streakCol (update_habit hid name rt db).2 = streakCol db ∧
     lastDoneCol (update_habit hid name rt db).2 = lastDoneCol db ∧
     archivedCol (update_habit hid name rt db).2 = archivedCol db ∧
     (update_habit hid name rt db).2.completions = db.completions) ∧
    (streakCol (archive_habit hid db).2 = streakCol db ∧
     lastDoneCol (archive_habit hid db).2 = lastDoneCol db ∧
     nameCol (archive_habit hid db).2 = nameCol db ∧
     reminderCol (archive_habit hid db).2 = reminderCol db ∧
     (archive_habit hid db).2.completions = db.completions) ∧
    (streakCol (unarchive_habit hid db).2 = streakCol db ∧
     lastDoneCol (unarchive_habit hid db).2 = lastDoneCol db ∧
     nameCol (unarchive_habit hid db).2 = nameCol db ∧
     reminderCol (unarchive_habit hid db).2 = reminderCol db ∧
     (unarchive_habit hid db).2.completions = db.completions) :=
  ⟨update_habit_frame hid name rt db, archive_habit_frame hid db,
   unarchive_habit_frame hid db⟩

/-- Claim C3 counterexample: in the cache-divergent state dbDivergentW
(cached streak 5, cached last_done day 10, empty completion set — the shape
the JSON migration produces), with no completion record for today = day 11,
complete(11) followed by uncomplete(11) ends with streak 0 and last_done none
rather than restoring the pre-complete streak 5 and last_done day 10. -/
theorem claim_roundtrip_counterexample :
    completionExists dbDivergentW 1 11 = false ∧
    (findHabit dbDivergentW.habits 1).map Habit.streak = some 5 ∧
    (findHabit dbDivergentW.habits 1).map Habit.last_done = some (some 10) ∧
    (findHabit (uncomplete_habit_for_today 1 11
        (complete_habit_for_today 1 11 dbDivergentW).2).2.habits 1).map Habit.streak
      = some 0 ∧
    (findHabit (uncomplete_habit_for_today 1 11
        (complete_habit_for_today 1 11 dbDivergentW).2).2.habits 1).map Habit.last_done
      = some none :=
  ⟨rfl, rfl, rfl, rfl, rfl⟩

/-- Claim C3 (amended): for every habit with no completion record for today
whose cached streak and last-completed date agree with its completion-record
set — which is the case for every state the engine itself produces —
complete(today) immediately followed by uncomplete(today) restores exactly the
pre-complete streak value and the pre-complete last-completed date. -/
theorem claim_roundtrip_restores_consistent
    (hid : Nat) (today : Int) (db : DB) (habit : Habit)
    (hfind : findHabit db.habits hid = some habit)
    (hex : completionExists db hid today = false)
    (hnd : (completionDates db hid).Nodup)
    (hstreak : habit.streak = specStreak (completionDates db hid))
    (hlast : habit.last_done = specLastDone (completionDates db hid)) :
    ∃ habit',
      findHabit (uncomplete_habit_for_today hid today
          (complete_habit_for_today hid today db).2).2.habits hid = some habit' ∧
      habit'.streak = habit.streak ∧
      habit'.last_done = habit.last_done := by
  have hnm : today ∉ completionDates db hid := by
    intro hm
    have h1 := (completionExists_iff db hid today).mpr ((mem_completionDates db hid today).mp hm)
    rw [hex] at h1
    exact Bool.false_ne_true h1
  have h2 : (complete_habit_for_today hid today db).2
      = { habits := setHabitFields db.habits hid (calcNewStreak habit today) (some today),
          completions := db.completions ++ [(hid, today)] } := by
    rw [complete_ok_eq hfind hex]
  rw [h2]
  have hfind1 : findHabit
      (setHabitFields db.habits hid (calcNewStreak habit today) (some today)) hid
      = some { habit with streak := calcNewStreak habit today, last_done := some today } := by
    rw [findHabit_setHabitFields, if_pos rfl, hfind]
    rfl
  have hex1 : completionExists
      { habits := setHabitFields db.habits hid (calcNewStreak habit today) (some today),
        completions := db.completions ++ [(hid, today)] } hid today = true := by
    rw [completionExists_iff]
    exact List.mem_append_right _ (List.mem_singleton_self _)
  have hdates1 := completionDates_append_own
    (setHabitFields db.habits hid (calcNewStreak habit today) (some today))
    db.completions hid today
  have hnd1 : (completionDates
      { habits := setHabitFields db.habits hid (calcNewStreak habit today) (some today),
        completions := db.completions ++ [(hid, today)] } hid).Nodup := by
    rw [hdates1]
    exact hnd.append (List.nodup_singleton _)
      (by intro x hx1 hx2; simp at hx2; subst hx2; exact hnm hx1)
  have hRR : (completionDates
      { habits := setHabitFields db.habits hid (calcNewStreak habit today) (some today),
        completions := db.completions ++ [(hid, today)] } hid).filter
        (fun d => !(d == today))
      = completionDates db hid := by
    rw [hdates1, List.filter_append]
    rw [show completionDates
        { habits := setHabitFields db.habits hid (calcNewStreak habit today) (some today),
          completions := db.completions } hid = completionDates db hid from rfl]
    have h5 : (completionDates db hid).filter (fun d => !(d == today))
        = completionDates db hid := by
      apply List.filter_eq_self.mpr
      intro a ha
      rw [Bool.not_eq_eq_eq_not, Bool.not_true, beq_eq_false_iff_ne]
      exact fun hEq => hnm (hEq ▸ ha)
    rw [h5]
    simp
  have hU := uncomplete_ok_eq hfind1 hex1 hnd1
  rw [hU]
  dsimp only
  rw [hRR, findHabit_setHabitFields, if_pos rfl, hfind1]
  simp only [Option.map_some']
  refine ⟨_, rfl, ?_, ?_⟩
  · exact hstreak.symm
  · exact hlast.symm

/-- Witness for claim C3 (amended): a fresh consistent habit completed and
uncompleted on day 5. -/
theorem claim_roundtrip_restores_consistent_witness :
    ∃ habit',
      findHabit (uncomplete_habit_for_today 1 5
          (complete_habit_for_today 1 5 dbFreshW).2).2.habits 1 = some habit' ∧
      habit'.streak = habitFreshW.streak ∧
      habit'.last_done = habitFreshW.last_done :=
  claim_roundtrip_restores_consistent 1 5 dbFreshW habitFreshW rfl rfl (by decide) rfl rfl

/-- Claim C4: for every habit state reachable from a freshly created habit
(streak 0, no completions) by any sequence of complete/uncomplete operations
with a non-decreasing current date, every habit row's stored streak equals the
consecutive-day count derived from its completion-record set (ending at the
most recent completion) and its stored last-completed date equals the maximum
date of that set (0 and none when the set is empty): both cached fields are
re-derivable from the completion-record set. -/
theorem claim_reachable_cache_rederivable {db : DB} {t : Int} (h : Reach db t)
    (hid : Nat) (habit : Habit) (hfind : findHabit db.habits hid = some habit) :
    habit.streak = specStreak (completionDates db hid) ∧
    habit.last_done = specLastDone (completionDates db hid) :=
  (engineInv_of_reach h).2.2 hid habit hfind

/-- Witness for claim C4: the freshly created habit itself. -/
theorem claim_reachable_cache_rederivable_witness :
    ({ name := "water", streak := 0, last_done := none,
       reminder_time := none } : Habit).streak
      = specStreak (completionDates (freshDB 1 "water" none) 1) ∧
    ({ name := "water", streak := 0, last_done := none,
       reminder_time := none } : Habit).last_done
      = specLastDone (completionDates (freshDB 1 "water" none) 1) :=
  claim_reachable_cache_rederivable (Reach.init 1 "water" none 0) 1 _ rfl

/-- Claim C5: when a completion record for (habit, today) already exists,
complete returns the "Habit already completed today" error and leaves the
database — habit fields and completion set — entirely unchanged; in
particular, a second complete immediately after a successful one for the same
date fails this way with the state unchanged. -/
theorem claim_complete_already_completed_unchanged :
    (∀ (hid : Nat) (today : Int) (db : DB) (habit : Habit),
      findHabit db.habits hid = some habit →
      completionExists db hid today = true →
      complete_habit_for_today hid today db
        = (Except.error "Habit already completed today", db)) ∧
    (∀ (hid : Nat) (today : Int) (db0 db : DB) (ns : Int),
      complete_habit_for_today hid today db0 = (Except.ok ns, db) →
      complete_habit_for_today hid today db
        = (Except.error "Habit already completed today", db)) := by
  constructor
  · intro hid today db habit hfind hex
    exact complete_already hfind hex
  · intro hid today db0 db ns hsucc
    cases hfind0 : findHabit db0.habits hid with
    | none =>
      rw [complete_not_found hfind0] at hsucc
      injection hsucc with h1 h2
      exact Except.noConfusion h1
    | some habit0 =>
      cases hex0 : completionExists db0 hid today with
      | true =>
        rw [complete_already hfind0 hex0] at hsucc
        injection hsucc with h1 h2
        exact Except.noConfusion h1
      | false =>
        rw [complete_ok_eq hfind0 hex0] at hsucc
        injection hsucc with h1 h2
        subst h2
        have hf : findHabit
            (setHabitFields db0.habits hid (calcNewStreak habit0 today) (some today)) hid
            = some
              { habit0 with streak := calcNewStreak habit0 today, last_done := some today } := by
          rw [findHabit_setHabitFields, if_pos rfl, hfind0]
          rfl
        have hx : completionExists
            { habits := setHabitFields db0.habits hid (calcNewStreak habit0 today) (some today),
              completions := db0.completions ++ [(hid, today)] } hid today = true := by
          rw [completionExists_iff]
          exact List.mem_append_right _ (List.mem_singleton_self _)
        exact complete_already hf hx

/-- Witness for claim C5: completing a habit already completed on day 5. -/
theorem claim_complete_already_completed_unchanged_witness :
    complete_habit_for_today 1 5 dbDoneW
      = (Except.error "Habit already completed today", dbDoneW) :=
  claim_complete_already_completed_unchanged.1 1 5 dbDoneW habitDoneW rfl rfl

/-- Claim C6: for an existing habit with no completion record for (habit,
today), uncomplete fails with the "Habit not completed today" error and
changes no state; and, for an existing habit, uncomplete succeeds exactly when
a completion record for (habit, today) exists. -/
theorem claim_uncomplete_not_completed_error
    (hid : Nat) (today : Int) (db : DB) (habit : Habit)
    (hfind : findHabit db.habits hid = some habit) :
    (completionExists db hid today = false →
      uncomplete_habit_for_today hid today db
        = (Except.error "Habit not completed today", db)) ∧
    ((∃ ns, (uncomplete_habit_for_today hid today db).1 = Except.ok ns) ↔
      completionExists db hid today = true) := by
  constructor
  · intro hex
    exact uncomplete_not_completed hfind hex
  · constructor
    · rintro ⟨ns, hok⟩
      cases hex : completionExists db hid today with
      | true => rfl
      | false =>
        rw [uncomplete_not_completed hfind hex] at hok
        exact Except.noConfusion hok
    · intro hex
      exact uncomplete_isOk hfind hex

/-- Witness for claim C6: a fresh habit with no completion for day 5. -/
theorem claim_uncomplete_not_completed_error_witness :
    (completionExists dbFreshW 1 5 = false →
      uncomplete_habit_for_today 1 5 dbFreshW
        = (Except.error "Habit not completed today", dbFreshW)) ∧
    ((∃ ns, (uncomplete_habit_for_today 1 5 dbFreshW).1 = Except.ok ns) ↔
      completionExists dbFreshW 1 5 = true) :=
  claim_uncomplete_not_completed_error 1 5 dbFreshW habitFreshW rfl
